import Mathlib

/-
  Verification development for the slp multimodal dataset pipeline
  (slp/mm/load.py together with the pickle helpers of slp/util/sys.py).

  The Python code is shallowly embedded:
  - numpy feature scalars become the inductive type Val, where nan_to_num
    replaces the NaN constructor by the number 0;
  - a row of the aligned text modality is a TCell: raw bs is the undecoded
    byte row whose utf-8 decoding is bs, str s is a plain Python string
    that the code wrote into the sequence;
  - per-segment processing (clean_split_dataset) is a step function plus an
    explicit loop over the segment list, with log.warning calls collected in
    an output list and the two possible runtime crashes (AttributeError from
    re.search(...).group(1) on a non-matching id, NameError from reading
    num_drop when no iteration ever assigned it) made explicit as errors;
  - the pickle-based split cache becomes an association-list file store.
-/

/-- A numeric feature scalar: either NaN or a finite value (modelled as an
integer; no claim depends on non-integral arithmetic). -/
inductive Val where
  | nan : Val
  | num : Int → Val
deriving DecidableEq, Repr

/-- np.nan_to_num on a scalar: NaN becomes 0, finite values are unchanged. -/
def nanToNum : Val → Val
  | Val.nan => Val.num 0
  | Val.num z => Val.num z

/-- One cell of the text modality sequence. raw bs is an original aligned
feature row (a one-element array of bytes) whose utf-8 decoding is bs;
str s is a plain string stored into the sequence by the cleaning code. -/
inductive TCell where
  | raw : String → TCell
  | str : String → TCell
deriving DecidableEq, Repr

/-- Decoding a text cell: w[0].decode of a raw row, or the string itself. -/
def TCell.decode : TCell → String
  | TCell.raw bs => bs
  | TCell.str s => s

/-- Modelled from the spec: slp.config.nlp.SPECIAL_TOKENS is not under src/.
The spec declares a fixed set of special tokens (pad/bos/eos/unk/pause)
appended in a fixed declared order; the PAD value. -/
def padValue : String := "[PAD]"

/-- Modelled from the spec: the PAUSE special-token value. -/
def pauseValue : String := "[PAUSE]"

/-- Modelled from the spec: the declared-order list of special-token string
values (pad/bos/eos/unk/pause). -/
def SPECIAL_TOKENS : List String :=
  [padValue, "[BOS]", "[EOS]", "[UNK]", pauseValue]

/-- Python dict assignment d[k] = v on an association list whose keys are
unique: replace the binding in place if the key is present, else append. -/
def dictSet {α : Type} : List (String × α) → String → α → List (String × α)
  | [], k, v => [(k, v)]
  | p :: rest, k, v =>
      if p.1 = k then (k, v) :: rest else p :: dictSet rest k v

/-- Python dict lookup d[k] as an Option. -/
def lookupD {α : Type} (d : List (String × α)) (k : String) : Option α :=
  (d.find? (fun p => p.1 == k)).map Prod.snd

/-
  Vocabulary construction, from load_dataset (load.py lines 60-75):
    all_words = list(set(all_words))
    word2idx, idx = dict(), 0
    for w in sorted(all_words):
        if w not in word2idx: word2idx[w] = idx; idx += 1
    for t in SPECIAL_TOKENS:
        word2idx[t.value] = idx; idx += 1
-/

/-- Insertion of a string into a sorted list, the building block used to
model Python sorted. -/
def insertSorted (w : String) : List String → List String
  | [] => [w]
  | x :: xs => if w ≤ x then w :: x :: xs else x :: insertSorted w xs

/-- Python sorted on a list of strings (insertion sort; on the duplicate-free
lists it is applied to here, any sort agrees with it). -/
def sortStrings (l : List String) : List String := l.foldr insertSorted []

/-- One step of the corpus-word loop of load_dataset: skip words already in
the dict, otherwise assign the running index and bump it. -/
def corpusStep (p : List (String × Nat) × Nat) (w : String) :
    List (String × Nat) × Nat :=
  if p.1.any (fun q => q.1 == w) then p else (dictSet p.1 w p.2, p.2 + 1)

/-- One step of the special-token loop of load_dataset: assign the running
index unconditionally (overwriting any equal corpus word) and bump it. -/
def specialStep (p : List (String × Nat) × Nat) (t : String) :
    List (String × Nat) × Nat :=
  (dictSet p.1 t p.2, p.2 + 1)

/-- word2idx as built by load_dataset from the multiset of decoded words of
all segments: dedupe, sort, enumerate, then append the special tokens. -/
def buildWord2idx (allWords : List String) : List (String × Nat) :=
  let distinctWords := allWords.dedup
  let p1 := (sortStrings distinctWords).foldl corpusStep ([], 0)
  (SPECIAL_TOKENS.foldl specialStep p1).1

/-
  Video-id extraction, clean_split_dataset lines 92 and 100:
    pattern = re.compile('(.*)[LBRACKET].*[RBRACKET]')
    vid = re.search(pattern, segment).group(1)
  re.search matches iff the id contains an open bracket with a close bracket
  somewhere after it; the greedy leading group makes group(1) the prefix
  before the last such open bracket. A non-matching id makes group(1) an
  attribute access on None, an AttributeError.
-/

/-- Whether a segment id contains a bracketed block: an open bracket with a
close bracket after it (the condition for the regex to match at all). -/
def hasBracketBlockAux : List Char → Bool
  | [] => false
  | c :: rest => (c == '[' && rest.contains ']') || hasBracketBlockAux rest

/-- Whether a segment id contains a bracketed block. -/
def hasBracketBlock (s : String) : Bool := hasBracketBlockAux s.toList

/-- Positions (absolute, starting at the given offset) of open brackets that
have a close bracket after them. -/
def vidIdxsAux : Nat → List Char → List Nat
  | _, [] => []
  | k, c :: rest =>
      (if c == '[' && rest.contains ']' then [k] else []) ++
        vidIdxsAux (k + 1) rest

/-- re.search of the pattern against a segment id: group(1) is the prefix
before the last open bracket that has a close bracket after it, or none if
the pattern does not match. -/
def vidSearch (s : String) : Option String :=
  match (vidIdxsAux 0 s.toList).getLast? with
  | none => none
  | some k => some (String.mk (s.toList.take k))

/-
  Per-segment cleaning, clean_split_dataset lines 98-193.
-/

/-- Pipeline configuration: the keyword arguments of clean_split_dataset. -/
structure Config where
  modalities : List String
  removePauses : Bool
  removeNeutral : Bool
  maxLength : Int
  padFront : Bool
  padBack : Bool

/-- The three canonical fold membership lists of the selected dataset. -/
structure Folds where
  train : List String
  dev : List String
  test : List String

/-- One segment of the aligned dataset: its id, its (nan-replaced later)
label scalar, the text modality rows, and the rows of every other modality
looked up by name. -/
structure Segment where
  segId : String
  label : Val
  text : List TCell
  feats : String → List (List Val)

/-- An emitted segment record: the mods dict after cleaning, plus the
video_id, segment_id and label entries the code adds to it. -/
structure Record where
  videoId : String
  segId : String
  label : Val
  text? : Option (List TCell)
  feats : List (String × List (List Val))
deriving DecidableEq, Repr

/-- Sequence length (row count) of one requested modality of a segment. -/
def modLen (seg : Segment) (m : String) : Nat :=
  if m = "text" then seg.text.length else (seg.feats m).length

/-- mod_shapes: the per-modality mapping from modality name to row count. -/
def modShapes (cfg : Config) (seg : Segment) : List (String × Nat) :=
  cfg.modalities.map (fun m => (m, modLen seg m))

/-- sp_idx: the positions of the text sequence whose decoded word is the
pause marker. -/
def spIdx (t : List TCell) : List Nat :=
  (List.range t.length).filter
    (fun i => decide ((t.getD i (TCell.str "")).decode = "sp"))

/-- The remove_pauses branch for the text modality: rebuild the sequence
from the positions not in sp_idx, as decoded strings. -/
def removePausesText (t : List TCell) (sp : List Nat) : List TCell :=
  ((List.range t.length).filter (fun i => decide (i ∉ sp))).map
    (fun i => TCell.str (t.getD i (TCell.str "")).decode)

/-- The remove_pauses branch for a non-text modality: keep the rows whose
position is not in sp_idx. -/
def removePausesVec (rows : List (List Val)) (sp : List Nat) :
    List (List Val) :=
  ((List.range rows.length).filter (fun i => decide (i ∉ sp))).map
    (fun i => rows.getD i [])

/-- The keep-pauses branch (lines 139-146): mods_nosp aliases mods, and the
loop over the original index range sets pause positions to the PAUSE string
but APPENDS the decoded word for every other position (reading from the
evolving list), instead of replacing it in place. -/
def pauseKeepText (t : List TCell) (sp : List Nat) : List TCell :=
  (List.range t.length).foldl
    (fun acc i =>
      if i ∈ sp then acc.set i (TCell.str pauseValue)
      else acc ++ [TCell.str ((acc.getD i (TCell.str "")).decode)])
    t

/-- np.nan_to_num over the rows of a non-text modality. -/
def nanRows (rows : List (List Val)) : List (List Val) :=
  rows.map (fun row => row.map nanToNum)

/-- Length normalization for the text modality (lines 149-179): truncate to
the last max_length rows, or pad with the PAD token at the front or at the
back when the corresponding flag is set; otherwise leave unchanged. Called
only under max_length > 0. -/
def fixLenText (maxLength : Int) (pf pb : Bool) (s : List TCell) :
    List TCell :=
  let M := maxLength.toNat
  let n := s.length
  if M < n then s.drop (n - M)
  else if n < M ∧ pf = true then
    List.replicate (M - n) (TCell.str padValue) ++ s
  else if n < M ∧ pb = true then
    s ++ List.replicate (M - n) (TCell.str padValue)
  else s

/-- Length normalization for a non-text modality: as for text, but the pad
row is np.zeros of the shape of the first row. -/
def fixLenVec (maxLength : Int) (pf pb : Bool) (rows : List (List Val)) :
    List (List Val) :=
  let M := maxLength.toNat
  let n := rows.length
  let d := (rows.getD 0 []).length
  if M < n then rows.drop (n - M)
  else if n < M ∧ pf = true then
    List.replicate (M - n) (List.replicate d (Val.num 0)) ++ rows
  else if n < M ∧ pb = true then
    rows ++ List.replicate (M - n) (List.replicate d (Val.num 0))
  else rows

/-- The text modality after pause handling: removal of the pause positions
when remove_pauses is set, else the aliased in-place/append loop. -/
def textStage (cfg : Config) (text : List TCell) : List TCell :=
  if cfg.removePauses then removePausesText text (spIdx text)
  else pauseKeepText text (spIdx text)

/-- The text modality after pause handling and length normalization, when
text is a requested modality. -/
def textPipeline (cfg : Config) (text : List TCell) : Option (List TCell) :=
  if "text" ∈ cfg.modalities then
    some (if 0 < cfg.maxLength then
      fixLenText cfg.maxLength cfg.padFront cfg.padBack
        (textStage cfg text)
    else textStage cfg text)
  else none

/-- A non-text modality after nan replacement and (when text is requested
and remove_pauses is set) synchronized pause deletion. -/
def featsStage (cfg : Config) (text : List TCell)
    (rows : List (List Val)) : List (List Val) :=
  if "text" ∈ cfg.modalities ∧ cfg.removePauses = true then
    removePausesVec (nanRows rows) (spIdx text)
  else nanRows rows

/-- A non-text modality after the full per-segment cleaning chain. -/
def featsPipeline (cfg : Config) (text : List TCell)
    (rows : List (List Val)) : List (List Val) :=
  if 0 < cfg.maxLength then
    fixLenVec cfg.maxLength cfg.padFront cfg.padBack
      (featsStage cfg text rows)
  else featsStage cfg text rows

/-- The record built for a segment that survived the neutral filter and the
shape-consistency check: nan replacement on non-text rows, pause handling
when text is requested, then length normalization when max_length > 0. -/
def emitRecord (cfg : Config) (seg : Segment) (vid : String) : Record :=
  { videoId := vid
    segId := seg.segId
    label := nanToNum seg.label
    text? := textPipeline cfg seg.text
    feats := (cfg.modalities.filter (fun m => !(m == "text"))).map
      (fun m => (m, featsPipeline cfg seg.text (seg.feats m))) }

/-- The warnings the per-segment loop can log. -/
inductive Warn where
  | shapeMismatch : String → List (String × Nat) → Warn
  | noSplit : String → Warn
  | dropped : Nat → Warn
deriving DecidableEq, Repr

/-- The two runtime crashes of clean_split_dataset made explicit:
AttributeError from group(1) on a failed regex search, NameError from the
final log reading num_drop when no iteration ever assigned it. -/
inductive CleanErr where
  | attributeError : CleanErr
  | nameError : CleanErr
deriving DecidableEq, Repr

/-- Outcome of one loop iteration: skipped by the neutral filter, dropped by
the shape-consistency check (with the warning payload), or emitted. -/
inductive StepRes where
  | skipNeutral : StepRes
  | dropShape : String → List (String × Nat) → StepRes
  | emit : Record → StepRes
deriving DecidableEq, Repr

/-- One iteration of the loop body of clean_split_dataset, up to (but not
including) the routing into the three splits. -/
def processSegment (cfg : Config) (seg : Segment) : Except CleanErr StepRes :=
  match vidSearch seg.segId with
  | none => Except.error CleanErr.attributeError
  | some vid =>
      if cfg.removeNeutral = true ∧ nanToNum seg.label = Val.num 0 then
        Except.ok StepRes.skipNeutral
      else if 1 < ((modShapes cfg seg).map Prod.snd).dedup.length then
        Except.ok (StepRes.dropShape vid (modShapes cfg seg))
      else Except.ok (StepRes.emit (emitRecord cfg seg vid))

/-- Loop state: the three split accumulators, the warnings logged so far,
and num_drop (none while still unassigned). -/
structure CState where
  train : List Record
  dev : List Record
  test : List Record
  warns : List Warn
  numDrop : Option Nat
deriving Repr

/-- Apply one iteration outcome to the loop state: the neutral filter skips
before num_drop is assigned; a shape drop logs its warning and leaves
num_drop at 1; an emitted record leaves num_drop at 0 and is routed to the
first of train/dev/test whose fold contains its video id, else the
fold-membership warning is logged. -/
def applyStep (folds : Folds) (st : CState) : StepRes → CState
  | StepRes.skipNeutral => st
  | StepRes.dropShape vid shapes =>
      { st with
        warns := st.warns ++ [Warn.shapeMismatch vid shapes]
        numDrop := some 1 }
  | StepRes.emit r =>
      if r.videoId ∈ folds.train then
        { st with
          numDrop := some 0
          train := st.train ++ [r] }
      else if r.videoId ∈ folds.dev then
        { st with
          numDrop := some 0
          dev := st.dev ++ [r] }
      else if r.videoId ∈ folds.test then
        { st with
          numDrop := some 0
          test := st.test ++ [r] }
      else
        { st with
          numDrop := some 0
          warns := st.warns ++ [Warn.noSplit r.videoId] }

/-- The per-segment loop of clean_split_dataset. -/
def cleanLoop (cfg : Config) (folds : Folds) :
    List Segment → CState → Except CleanErr CState
  | [], st => Except.ok st
  | seg :: rest, st =>
      match processSegment cfg seg with
      | Except.error e => Except.error e
      | Except.ok res => cleanLoop cfg folds rest (applyStep folds st res)

/-- clean_split_dataset: run the loop from the empty state, then log the
final Dropped-count warning, a NameError if num_drop was never assigned. -/
def cleanSplitDataset (cfg : Config) (folds : Folds) (segs : List Segment) :
    Except CleanErr
      (List Record × List Record × List Record × List Warn) :=
  match cleanLoop cfg folds segs ⟨[], [], [], [], none⟩ with
  | Except.error e => Except.error e
  | Except.ok st =>
      match st.numDrop with
      | none => Except.error CleanErr.nameError
      | some n =>
          Except.ok (st.train, st.dev, st.test,
            st.warns ++ [Warn.dropped n])

/-
  The split cache, load_splits (load.py lines 198-229) over the pickle
  helpers pickle_load / pickle_dump (slp/util/sys.py lines 126-134).
-/

/-- The processed-output quadruple (train, dev, test, word2idx). -/
def Quad : Type :=
  List Record × List Record × List Record × List (String × Nat)

/-- Content of a cache file: a pickled quadruple, or bytes whose
deserialization raises an error other than FileNotFoundError. -/
inductive FileVal where
  | good : Quad → FileVal
  | bad : FileVal

/-- The filesystem seen by the pickle helpers: filename to file content. -/
def Store : Type := List (String × FileVal)

/-- Errors of pickle_load: the file is absent (FileNotFoundError) or its
content does not deserialize (any other exception). -/
inductive PickleErr where
  | fileNotFound : PickleErr
  | unpickling : PickleErr
deriving DecidableEq, Repr

/-- pickle_load: open the file and deserialize its content. -/
def pickle_load (store : Store) (fname : String) : Except PickleErr Quad :=
  match lookupD store fname with
  | none => Except.error PickleErr.fileNotFound
  | some FileVal.bad => Except.error PickleErr.unpickling
  | some (FileVal.good q) => Except.ok q

/-- pickle_dump: serialize the quadruple into the named file. -/
def pickle_dump (store : Store) (data : Quad) (fname : String) : Store :=
  dictSet store fname (FileVal.good data)

/-- The non-cache arguments of load_splits. -/
structure LoadArgs where
  dataset : String
  modalities : List String
  removePauses : Bool
  removeNeutral : Bool
  maxLength : Int
  padFront : Bool
  padBack : Bool

/-- Errors surfaced by load_splits: a failed deserialization other than
FileNotFoundError, or a crash of the recomputation pipeline. -/
inductive LSErr where
  | unpickling : LSErr
  | cleanErr : CleanErr → LSErr

/-- load_splits: on a cache path, try pickle_load and return its value
verbatim; only FileNotFoundError falls through to recomputation (the
load_dataset plus clean_split_dataset pipeline, abstracted here as the
compute argument since the dataset contents live outside the repository),
whose result is dumped back to the cache path. -/
def load_splits (compute : LoadArgs → Except CleanErr Quad) (store : Store)
    (args : LoadArgs) (cache : Option String) :
    Except LSErr (Quad × Store) :=
  match cache with
  | none =>
      match compute args with
      | Except.ok q => Except.ok (q, store)
      | Except.error e => Except.error (LSErr.cleanErr e)
  | some p =>
      match pickle_load store p with
      | Except.ok v => Except.ok (v, store)
      | Except.error PickleErr.fileNotFound =>
          match compute args with
          | Except.ok q => Except.ok (q, pickle_dump store q p)
          | Except.error e => Except.error (LSErr.cleanErr e)
      | Except.error PickleErr.unpickling => Except.error LSErr.unpickling

/-
  Supporting lemmas: dictionaries and the vocabulary folds.
-/

theorem lookupD_dictSet {α : Type} (d : List (String × α)) (k : String)
    (v : α) : lookupD (dictSet d k v) k = some v := by
  induction d with
  | nil => simp [dictSet, lookupD, List.find?]
  | cons p rest ih =>
      by_cases h : p.1 = k
      · simp [dictSet, h, lookupD, List.find?]
      · have hb : (p.1 == k) = false := by
          simpa using h
        simp only [dictSet, if_neg h]
        simpa [lookupD, List.find?, hb] using ih

theorem dictSet_fresh {α : Type} (d : List (String × α)) (k : String)
    (v : α) (h : k ∉ d.map Prod.fst) : dictSet d k v = d ++ [(k, v)] := by
  induction d with
  | nil => simp [dictSet]
  | cons p rest ih =>
      simp only [List.map_cons, List.mem_cons] at h
      push_neg at h
      have h1 : ¬ p.1 = k := fun hc => h.1 hc.symm
      simp [dictSet, h1, ih h.2]

/-- Enumeration of a word list with indices starting at i, the closed form
of the two vocabulary folds on fresh keys. -/
def enumFrom : Nat → List String → List (String × Nat)
  | _, [] => []
  | i, w :: ws => (w, i) :: enumFrom (i + 1) ws

theorem enumFrom_map_fst (i : Nat) (l : List String) :
    (enumFrom i l).map Prod.fst = l := by
  induction l generalizing i with
  | nil => rfl
  | cons w ws ih => simp [enumFrom, ih]

theorem enumFrom_map_snd (i : Nat) (l : List String) :
    (enumFrom i l).map Prod.snd = List.range' i l.length := by
  induction l generalizing i with
  | nil => rfl
  | cons w ws ih => simp [enumFrom, ih, List.range']

theorem enumFrom_length (i : Nat) (l : List String) :
    (enumFrom i l).length = l.length := by
  induction l generalizing i with
  | nil => rfl
  | cons w ws ih => simp [enumFrom, ih]

theorem range'_add_len (i a b : Nat) :
    List.range' i (a + b) = List.range' i a ++ List.range' (i + a) b := by
  induction a generalizing i with
  | zero => simp
  | succ a ih =>
      have : i + (a + 1) = (i + 1) + a := by omega
      simp [Nat.succ_add, List.range', ih, this]

theorem specials_fold (l : List String) (d : List (String × Nat)) (i : Nat)
    (hnd : l.Nodup) (hf : ∀ w ∈ l, w ∉ d.map Prod.fst) :
    l.foldl specialStep (d, i) = (d ++ enumFrom i l, i + l.length) := by
  induction l generalizing d i with
  | nil => simp [enumFrom]
  | cons t ts ih =>
      have ht : t ∉ d.map Prod.fst := hf t (List.mem_cons_self t ts)
      have hstep : specialStep (d, i) t = (d ++ [(t, i)], i + 1) := by
        simp [specialStep, dictSet_fresh d t i ht]
      have hnd' : ts.Nodup := (List.nodup_cons.mp hnd).2
      have htn : t ∉ ts := (List.nodup_cons.mp hnd).1
      have hf' : ∀ w ∈ ts, w ∉ (d ++ [(t, i)]).map Prod.fst := by
        intro w hw
        simp only [List.map_append, List.mem_append, List.map_cons,
          List.map_nil, List.mem_singleton]
        rintro (hc | hc)
        · exact hf w (List.mem_cons_of_mem t hw) hc
        · exact htn (hc ▸ hw)
      calc (t :: ts).foldl specialStep (d, i)
          = ts.foldl specialStep (d ++ [(t, i)], i + 1) := by
            simp [List.foldl_cons, hstep]
        _ = (d ++ [(t, i)] ++ enumFrom (i + 1) ts, (i + 1) + ts.length) :=
            ih (d ++ [(t, i)]) (i + 1) hnd' hf'
        _ = (d ++ enumFrom i (t :: ts), i + (t :: ts).length) := by
            simp [enumFrom, List.append_assoc, List.length_cons]
            omega

theorem corpus_fold (l : List String) (d : List (String × Nat)) (i : Nat)
    (hnd : l.Nodup) (hf : ∀ w ∈ l, w ∉ d.map Prod.fst) :
    l.foldl corpusStep (d, i) = (d ++ enumFrom i l, i + l.length) := by
  induction l generalizing d i with
  | nil => simp [enumFrom]
  | cons t ts ih =>
      have ht : t ∉ d.map Prod.fst := hf t (List.mem_cons_self t ts)
      have hany : d.any (fun q => q.1 == t) = false := by
        rw [List.any_eq_false]
        intro q hq
        simp only [beq_iff_eq]
        intro hc
        exact ht (hc ▸ List.mem_map_of_mem Prod.fst hq)
      have hstep : corpusStep (d, i) t = (d ++ [(t, i)], i + 1) := by
        simp [corpusStep, hany, dictSet_fresh d t i ht]
      have hnd' : ts.Nodup := (List.nodup_cons.mp hnd).2
      have htn : t ∉ ts := (List.nodup_cons.mp hnd).1
      have hf' : ∀ w ∈ ts, w ∉ (d ++ [(t, i)]).map Prod.fst := by
        intro w hw
        simp only [List.map_append, List.mem_append, List.map_cons,
          List.map_nil, List.mem_singleton]
        rintro (hc | hc)
        · exact hf w (List.mem_cons_of_mem t hw) hc
        · exact htn (hc ▸ hw)
      calc (t :: ts).foldl corpusStep (d, i)
          = ts.foldl corpusStep (d ++ [(t, i)], i + 1) := by
            simp [List.foldl_cons, hstep]
        _ = (d ++ [(t, i)] ++ enumFrom (i + 1) ts, (i + 1) + ts.length) :=
            ih (d ++ [(t, i)]) (i + 1) hnd' hf'
        _ = (d ++ enumFrom i (t :: ts), i + (t :: ts).length) := by
            simp [enumFrom, List.append_assoc, List.length_cons]
            omega

theorem insertSorted_perm (w : String) (l : List String) :
    (insertSorted w l).Perm (w :: l) := by
  induction l with
  | nil => simp [insertSorted]
  | cons x xs ih =>
      by_cases h : w ≤ x
      · simp [insertSorted, h]
      · simp only [insertSorted, if_neg h]
        exact (ih.cons x).trans (List.Perm.swap w x xs)

theorem sortStrings_perm (l : List String) : (sortStrings l).Perm l := by
  induction l with
  | nil => simp [sortStrings]
  | cons x xs ih =>
      have : sortStrings (x :: xs) = insertSorted x (sortStrings xs) := rfl
      rw [this]
      exact (insertSorted_perm x (sortStrings xs)).trans (ih.cons x)

/-
  Supporting lemmas: the per-segment loop.
-/

theorem processSegment_none (cfg : Config) (seg : Segment)
    (h : vidSearch seg.segId = none) :
    processSegment cfg seg = Except.error CleanErr.attributeError := by
  unfold processSegment
  rw [h]

theorem processSegment_some (cfg : Config) (seg : Segment) (vid : String)
    (h : vidSearch seg.segId = some vid) :
    processSegment cfg seg =
      (if cfg.removeNeutral = true ∧ nanToNum seg.label = Val.num 0 then
        Except.ok StepRes.skipNeutral
      else if 1 < ((modShapes cfg seg).map Prod.snd).dedup.length then
        Except.ok (StepRes.dropShape vid (modShapes cfg seg))
      else Except.ok (StepRes.emit (emitRecord cfg seg vid))) := by
  unfold processSegment
  rw [h]

theorem processSegment_error_inv (cfg : Config) (seg : Segment)
    (e : CleanErr) (h : processSegment cfg seg = Except.error e) :
    e = CleanErr.attributeError ∧ vidSearch seg.segId = none := by
  cases hv : vidSearch seg.segId with
  | none =>
      rw [processSegment_none cfg seg hv] at h
      exact ⟨(Except.error.injEq _ _).mp h.symm, rfl⟩
  | some vid =>
      rw [processSegment_some cfg seg vid hv] at h
      split at h
      · cases h
      · split at h <;> cases h

theorem processSegment_emit_inv (cfg : Config) (seg : Segment) (r : Record)
    (h : processSegment cfg seg = Except.ok (StepRes.emit r)) :
    ∃ vid, vidSearch seg.segId = some vid ∧
      ¬ (cfg.removeNeutral = true ∧ nanToNum seg.label = Val.num 0) ∧
      ¬ (1 < ((modShapes cfg seg).map Prod.snd).dedup.length) ∧
      r = emitRecord cfg seg vid := by
  cases hv : vidSearch seg.segId with
  | none =>
      rw [processSegment_none cfg seg hv] at h
      cases h
  | some vid =>
      rw [processSegment_some cfg seg vid hv] at h
      refine ⟨vid, rfl, ?_⟩
      split at h
      · cases ((Except.ok.injEq _ _).mp h)
      · split at h
        · cases ((Except.ok.injEq _ _).mp h)
        · rename_i h1 h2
          have h3 := (Except.ok.injEq _ _).mp h
          exact ⟨h1, h2, ((StepRes.emit.injEq _ _).mp h3).symm⟩

theorem processSegment_drop_eq (cfg : Config) (seg : Segment) (vid : String)
    (hv : vidSearch seg.segId = some vid)
    (hne : ¬ (cfg.removeNeutral = true ∧ nanToNum seg.label = Val.num 0))
    (hmm : 1 < ((modShapes cfg seg).map Prod.snd).dedup.length) :
    processSegment cfg seg =
      Except.ok (StepRes.dropShape vid (modShapes cfg seg)) := by
  rw [processSegment_some cfg seg vid hv, if_neg hne, if_pos hmm]

/-- Membership in the three split accumulators, bundled. -/
def inSplits (st : CState) (r : Record) : Prop :=
  r ∈ st.train ∨ r ∈ st.dev ∨ r ∈ st.test

theorem applyStep_splits (folds : Folds) (st : CState) (res : StepRes)
    (r : Record) (h : inSplits (applyStep folds st res) r) :
    inSplits st r ∨ res = StepRes.emit r := by
  cases res with
  | skipNeutral => exact Or.inl h
  | dropShape vid shapes => exact Or.inl h
  | emit r' =>
      by_cases hv : r = r'
      · exact Or.inr (by rw [hv])
      · left
        unfold inSplits at h ⊢
        simp only [applyStep] at h
        split at h
        · simp only [List.mem_append, List.mem_singleton] at h
          tauto
        · split at h
          · simp only [List.mem_append, List.mem_singleton] at h
            tauto
          · split at h
            · simp only [List.mem_append, List.mem_singleton] at h
              tauto
            · exact h

theorem cleanLoop_mem_splits (cfg : Config) (folds : Folds)
    (segs : List Segment) :
    ∀ st0 st r, cleanLoop cfg folds segs st0 = Except.ok st →
      inSplits st r →
      inSplits st0 r ∨
        ∃ seg, seg ∈ segs ∧
          processSegment cfg seg = Except.ok (StepRes.emit r) := by
  induction segs with
  | nil =>
      intro st0 st r h hm
      simp only [cleanLoop] at h
      cases h
      exact Or.inl hm
  | cons seg rest ih =>
      intro st0 st r h hm
      simp only [cleanLoop] at h
      cases hp : processSegment cfg seg with
      | error e => rw [hp] at h; cases h
      | ok res =>
          rw [hp] at h
          rcases ih (applyStep folds st0 res) st r h hm with h1 | ⟨s, hs, he⟩
          · rcases applyStep_splits folds st0 res r h1 with h2 | h2
            · exact Or.inl h2
            · exact Or.inr ⟨seg, List.mem_cons_self seg rest, h2 ▸ hp⟩
          · exact Or.inr ⟨s, List.mem_cons_of_mem seg hs, he⟩

theorem cleanLoop_warns_mono (cfg : Config) (folds : Folds)
    (segs : List Segment) :
    ∀ st0 st w, cleanLoop cfg folds segs st0 = Except.ok st →
      w ∈ st0.warns → w ∈ st.warns := by
  induction segs with
  | nil =>
      intro st0 st w h hw
      simp only [cleanLoop] at h
      cases h
      exact hw
  | cons seg rest ih =>
      intro st0 st w h hw
      simp only [cleanLoop] at h
      cases hp : processSegment cfg seg with
      | error e => rw [hp] at h; cases h
      | ok res =>
          rw [hp] at h
          refine ih _ st w h ?_
          cases res with
          | skipNeutral => exact hw
          | dropShape vid shapes =>
              simp only [applyStep, List.mem_append]
              exact Or.inl hw
          | emit r =>
              simp only [applyStep]
              split
              · exact hw
              · split
                · exact hw
                · split
                  · exact hw
                  · simp only [List.mem_append]
                    exact Or.inl hw

theorem cleanLoop_warn_of_drop (cfg : Config) (folds : Folds)
    (segs : List Segment) :
    ∀ st0 st seg vid shapes, seg ∈ segs →
      processSegment cfg seg = Except.ok (StepRes.dropShape vid shapes) →
      cleanLoop cfg folds segs st0 = Except.ok st →
      Warn.shapeMismatch vid shapes ∈ st.warns := by
  induction segs with
  | nil => intro st0 st seg vid shapes hmem; cases hmem
  | cons a rest ih =>
      intro st0 st seg vid shapes hmem hstep h
      simp only [cleanLoop] at h
      rcases List.mem_cons.mp hmem with rfl | hmem'
      · rw [hstep] at h
        refine cleanLoop_warns_mono cfg folds rest _ st _ h ?_
        simp [applyStep]
      · cases hp : processSegment cfg a with
        | error e => rw [hp] at h; cases h
        | ok res =>
            rw [hp] at h
            exact ih _ st seg vid shapes hmem' hstep h

/-- Whether a warning is a shape-mismatch warning. -/
def isShapeWarn : Warn → Bool
  | Warn.shapeMismatch _ _ => true
  | _ => false

/-- Whether a loop iteration outcome is a shape-consistency drop. -/
def isDropStep : Except CleanErr StepRes → Bool
  | Except.ok (StepRes.dropShape _ _) => true
  | _ => false

theorem cleanLoop_warn_count (cfg : Config) (folds : Folds)
    (segs : List Segment) :
    ∀ st0 st, cleanLoop cfg folds segs st0 = Except.ok st →
      st.warns.countP isShapeWarn =
        st0.warns.countP isShapeWarn +
          segs.countP (fun s => isDropStep (processSegment cfg s)) := by
  induction segs with
  | nil =>
      intro st0 st h
      simp only [cleanLoop] at h
      cases h
      simp
  | cons seg rest ih =>
      intro st0 st h
      simp only [cleanLoop] at h
      cases hp : processSegment cfg seg with
      | error e => rw [hp] at h; cases h
      | ok res =>
          rw [hp] at h
          have hrec := ih (applyStep folds st0 res) st h
          have hcons : (seg :: rest).countP
              (fun s => isDropStep (processSegment cfg s)) =
                rest.countP (fun s => isDropStep (processSegment cfg s)) +
                  (if isDropStep (Except.ok res) then 1 else 0) := by
            rw [List.countP_cons]
            simp only [hp]
          rw [hcons, hrec]
          cases res with
          | skipNeutral =>
              have h1 : (applyStep folds st0 StepRes.skipNeutral).warns =
                  st0.warns := rfl
              have h2 : isDropStep (Except.ok StepRes.skipNeutral) = false :=
                rfl
              rw [h1, h2]
              simp
          | dropShape vid shapes =>
              have h1 : (applyStep folds st0
                  (StepRes.dropShape vid shapes)).warns =
                  st0.warns ++ [Warn.shapeMismatch vid shapes] := rfl
              have h2 : isDropStep
                  (Except.ok (StepRes.dropShape vid shapes)) = true := rfl
              rw [h1, h2, List.countP_append]
              simp [isShapeWarn]
              omega
          | emit r =>
              have h1 : ((applyStep folds st0 (StepRes.emit r)).warns).countP
                  isShapeWarn = st0.warns.countP isShapeWarn := by
                simp only [applyStep]
                split
                · rfl
                · split
                  · rfl
                  · split
                    · rfl
                    · simp [List.countP_append, isShapeWarn,
                        List.countP_cons]
              have h2 : isDropStep (Except.ok (StepRes.emit r)) = false :=
                rfl
              rw [h1, h2]
              simp

/-- num_drop after the whole loop, expressed as a fold of the per-iteration
effect: the neutral filter leaves it untouched, a shape drop sets it to 1,
an emitted record sets it to 0. -/
def numDropAfter (cfg : Config) (init : Option Nat)
    (segs : List Segment) : Option Nat :=
  segs.foldl
    (fun acc s =>
      match processSegment cfg s with
      | Except.ok StepRes.skipNeutral => acc
      | Except.ok (StepRes.dropShape _ _) => some 1
      | Except.ok (StepRes.emit _) => some 0
      | Except.error _ => acc)
    init

theorem cleanLoop_numDrop (cfg : Config) (folds : Folds)
    (segs : List Segment) :
    ∀ st0 st, cleanLoop cfg folds segs st0 = Except.ok st →
      st.numDrop = numDropAfter cfg st0.numDrop segs := by
  induction segs with
  | nil =>
      intro st0 st h
      simp only [cleanLoop] at h
      cases h
      rfl
  | cons seg rest ih =>
      intro st0 st h
      simp only [cleanLoop] at h
      cases hp : processSegment cfg seg with
      | error e => rw [hp] at h; cases h
      | ok res =>
          rw [hp] at h
          have hrec := ih (applyStep folds st0 res) st h
          rw [hrec]
          simp only [numDropAfter, List.foldl_cons, hp]
          cases res with
          | skipNeutral => rfl
          | dropShape vid shapes => rfl
          | emit r =>
              have h0 : (applyStep folds st0 (StepRes.emit r)).numDrop =
                  some 0 := by
                simp only [applyStep]
                split
                · rfl
                · split
                  · rfl
                  · split
                    · rfl
                    · rfl
              rw [h0]

theorem numDropAfter_le_one (cfg : Config) (segs : List Segment) :
    ∀ init n, (∀ k, init = some k → k ≤ 1) →
      numDropAfter cfg init segs = some n → n ≤ 1 := by
  induction segs with
  | nil =>
      intro init n hinit h
      exact hinit n h
  | cons seg rest ih =>
      intro init n hinit h
      simp only [numDropAfter, List.foldl_cons] at h
      cases hp : processSegment cfg seg with
      | error e =>
          rw [hp] at h
          exact ih init n hinit h
      | ok res =>
          rw [hp] at h
          cases res with
          | skipNeutral => exact ih init n hinit h
          | dropShape vid shapes =>
              refine ih (some 1) n ?_ h
              intro k hk
              cases hk
              omega
          | emit r =>
              refine ih (some 0) n ?_ h
              intro k hk
              cases hk
              omega

theorem cleanLoop_total (cfg : Config) (folds : Folds)
    (segs : List Segment) :
    ∀ st0, (∀ s ∈ segs, (vidSearch s.segId).isSome = true) →
      ∃ st, cleanLoop cfg folds segs st0 = Except.ok st := by
  induction segs with
  | nil => intro st0 _; exact ⟨st0, rfl⟩
  | cons seg rest ih =>
      intro st0 hall
      have hv : (vidSearch seg.segId).isSome = true :=
        hall seg (List.mem_cons_self seg rest)
      cases hvs : vidSearch seg.segId with
      | none => rw [hvs] at hv; cases hv
      | some vid =>
          have hok : ∃ res, processSegment cfg seg = Except.ok res := by
            rw [processSegment_some cfg seg vid hvs]
            split
            · exact ⟨_, rfl⟩
            · split
              · exact ⟨_, rfl⟩
              · exact ⟨_, rfl⟩
          rcases hok with ⟨res, hres⟩
          rcases ih (applyStep folds st0 res)
              (fun s hs => hall s (List.mem_cons_of_mem seg hs)) with
            ⟨st, hst⟩
          refine ⟨st, ?_⟩
          simp only [cleanLoop, hres]
          exact hst

theorem cleanLoop_error_of_bad (cfg : Config) (folds : Folds)
    (segs : List Segment) :
    ∀ st0, (∃ s ∈ segs, vidSearch s.segId = none) →
      cleanLoop cfg folds segs st0 =
        Except.error CleanErr.attributeError := by
  induction segs with
  | nil => intro st0 ⟨s, hs, _⟩; cases hs
  | cons seg rest ih =>
      intro st0 ⟨s, hs, hnone⟩
      rcases List.mem_cons.mp hs with rfl | hs'
      · simp only [cleanLoop, processSegment_none cfg s hnone]
      · cases hp : processSegment cfg seg with
        | error e =>
            have he := (processSegment_error_inv cfg seg e hp).1
            simp only [cleanLoop, hp, he]
        | ok res =>
            simp only [cleanLoop, hp]
            exact ih (applyStep folds st0 res) ⟨s, hs', hnone⟩

theorem cleanSplitDataset_inv (cfg : Config) (folds : Folds)
    (segs : List Segment) (tr dv ts : List Record) (ws : List Warn)
    (h : cleanSplitDataset cfg folds segs = Except.ok (tr, dv, ts, ws)) :
    ∃ st n, cleanLoop cfg folds segs ⟨[], [], [], [], none⟩ = Except.ok st ∧
      st.numDrop = some n ∧ tr = st.train ∧ dv = st.dev ∧ ts = st.test ∧
      ws = st.warns ++ [Warn.dropped n] := by
  unfold cleanSplitDataset at h
  cases hl : cleanLoop cfg folds segs ⟨[], [], [], [], none⟩ with
  | error e =>
      rw [hl] at h
      exact Except.noConfusion h
  | ok st =>
      rw [hl] at h
      have h2 : (match st.numDrop with
          | none => Except.error CleanErr.nameError
          | some n =>
              Except.ok (st.train, st.dev, st.test,
                st.warns ++ [Warn.dropped n])) =
          Except.ok (tr, dv, ts, ws) := h
      cases hn : st.numDrop with
      | none =>
          rw [hn] at h2
          exact Except.noConfusion h2
      | some n =>
          rw [hn] at h2
          have h3 := (Except.ok.injEq _ _).mp h2
          simp only [Prod.mk.injEq] at h3
          exact ⟨st, n, rfl, hn, h3.1.symm, h3.2.1.symm, h3.2.2.1.symm,
            h3.2.2.2.symm⟩

/-
  Supporting lemmas: pause handling and length normalization.
-/

theorem fixLenText_eq (maxLength : Int) (pf pb : Bool) (s : List TCell) :
    fixLenText maxLength pf pb s =
      (if maxLength.toNat < s.length then s.drop (s.length - maxLength.toNat)
      else if s.length < maxLength.toNat ∧ pf = true then
        List.replicate (maxLength.toNat - s.length) (TCell.str padValue) ++ s
      else if s.length < maxLength.toNat ∧ pb = true then
        s ++ List.replicate (maxLength.toNat - s.length) (TCell.str padValue)
      else s) := rfl

theorem fixLenVec_eq (maxLength : Int) (pf pb : Bool)
    (rows : List (List Val)) :
    fixLenVec maxLength pf pb rows =
      (if maxLength.toNat < rows.length then
        rows.drop (rows.length - maxLength.toNat)
      else if rows.length < maxLength.toNat ∧ pf = true then
        List.replicate (maxLength.toNat - rows.length)
          (List.replicate (rows.getD 0 []).length (Val.num 0)) ++ rows
      else if rows.length < maxLength.toNat ∧ pb = true then
        rows ++ List.replicate (maxLength.toNat - rows.length)
          (List.replicate (rows.getD 0 []).length (Val.num 0))
      else rows) := rfl

/-- The output length of the length-normalization step as a function of the
input length. -/
def lenAfterFix (maxLength : Int) (pf pb : Bool) (n : Nat) : Nat :=
  if maxLength.toNat < n then maxLength.toNat
  else if n < maxLength.toNat ∧ pf = true then maxLength.toNat
  else if n < maxLength.toNat ∧ pb = true then maxLength.toNat
  else n

theorem fixLenText_length (maxLength : Int) (pf pb : Bool)
    (s : List TCell) :
    (fixLenText maxLength pf pb s).length =
      lenAfterFix maxLength pf pb s.length := by
  rw [fixLenText_eq]
  unfold lenAfterFix
  by_cases h1 : maxLength.toNat < s.length
  · rw [if_pos h1, if_pos h1, List.length_drop]
    omega
  · rw [if_neg h1, if_neg h1]
    by_cases h2 : s.length < maxLength.toNat ∧ pf = true
    · rw [if_pos h2, if_pos h2, List.length_append, List.length_replicate]
      omega
    · rw [if_neg h2, if_neg h2]
      by_cases h3 : s.length < maxLength.toNat ∧ pb = true
      · rw [if_pos h3, if_pos h3, List.length_append,
          List.length_replicate]
        omega
      · rw [if_neg h3, if_neg h3]

theorem fixLenVec_length (maxLength : Int) (pf pb : Bool)
    (rows : List (List Val)) :
    (fixLenVec maxLength pf pb rows).length =
      lenAfterFix maxLength pf pb rows.length := by
  rw [fixLenVec_eq]
  unfold lenAfterFix
  by_cases h1 : maxLength.toNat < rows.length
  · rw [if_pos h1, if_pos h1, List.length_drop]
    omega
  · rw [if_neg h1, if_neg h1]
    by_cases h2 : rows.length < maxLength.toNat ∧ pf = true
    · rw [if_pos h2, if_pos h2, List.length_append, List.length_replicate]
      omega
    · rw [if_neg h2, if_neg h2]
      by_cases h3 : rows.length < maxLength.toNat ∧ pb = true
      · rw [if_pos h3, if_pos h3, List.length_append,
          List.length_replicate]
        omega
      · rw [if_neg h3, if_neg h3]

theorem lenAfterFix_of_pad (maxLength : Int) (pf pb : Bool) (n : Nat)
    (hM : 0 < maxLength) (hp : pf = true ∨ pb = true) :
    lenAfterFix maxLength pf pb n = maxLength.toNat := by
  unfold lenAfterFix
  by_cases h1 : maxLength.toNat < n
  · rw [if_pos h1]
  · rw [if_neg h1]
    by_cases h2 : n < maxLength.toNat ∧ pf = true
    · rw [if_pos h2]
    · rw [if_neg h2]
      by_cases h3 : n < maxLength.toNat ∧ pb = true
      · rw [if_pos h3]
      · rw [if_neg h3]
        rcases hp with hp | hp
        · rw [hp] at h2
          simp only [and_true] at h2
          omega
        · rw [hp] at h3
          simp only [and_true] at h3
          omega

theorem fixLenText_mem (maxLength : Int) (pf pb : Bool) (s : List TCell)
    (c : TCell) (h : c ∈ fixLenText maxLength pf pb s) :
    c ∈ s ∨ c = TCell.str padValue := by
  rw [fixLenText_eq] at h
  split at h
  · exact Or.inl ((List.drop_sublist _ _).subset h)
  · split at h
    · rcases List.mem_append.mp h with h1 | h1
      · exact Or.inr (List.eq_of_mem_replicate h1)
      · exact Or.inl h1
    · split at h
      · rcases List.mem_append.mp h with h1 | h1
        · exact Or.inl h1
        · exact Or.inr (List.eq_of_mem_replicate h1)
      · exact Or.inl h

theorem spIdx_mem_iff (t : List TCell) (i : Nat) :
    i ∈ spIdx t ↔
      i < t.length ∧ (t.getD i (TCell.str "")).decode = "sp" := by
  unfold spIdx
  rw [List.mem_filter, List.mem_range]
  simp

theorem removePausesText_cells (t : List TCell) (c : TCell)
    (h : c ∈ removePausesText t (spIdx t)) : TCell.decode c ≠ "sp" := by
  unfold removePausesText at h
  rcases List.mem_map.mp h with ⟨i, hi, hc⟩
  rcases List.mem_filter.mp hi with ⟨hir, hnot⟩
  have hlt : i < t.length := List.mem_range.mp hir
  have hns : i ∉ spIdx t := by
    intro hcon
    rw [decide_eq_true_eq] at hnot
    exact hnot hcon
  have hd : ¬ (t.getD i (TCell.str "")).decode = "sp" := by
    intro hcon
    exact hns ((spIdx_mem_iff t i).mpr ⟨hlt, hcon⟩)
  rw [← hc]
  exact hd

theorem removePausesText_length (t : List TCell) (sp : List Nat) :
    (removePausesText t sp).length =
      ((List.range t.length).filter (fun i => decide (i ∉ sp))).length := by
  unfold removePausesText
  rw [List.length_map]

theorem removePausesVec_length (rows : List (List Val)) (sp : List Nat) :
    (removePausesVec rows sp).length =
      ((List.range rows.length).filter
        (fun i => decide (i ∉ sp))).length := by
  unfold removePausesVec
  rw [List.length_map]

theorem nanRows_length (rows : List (List Val)) :
    (nanRows rows).length = rows.length := by
  unfold nanRows
  rw [List.length_map]

theorem all_eq_of_dedup_le_one {l : List Nat} (h : ¬ 1 < l.dedup.length)
    (a b : Nat) (ha : a ∈ l) (hb : b ∈ l) : a = b := by
  have ha' : a ∈ l.dedup := List.mem_dedup.mpr ha
  have hb' : b ∈ l.dedup := List.mem_dedup.mpr hb
  match hd : l.dedup with
  | [] =>
      rw [hd] at ha'
      cases ha'
  | [x] =>
      rw [hd] at ha' hb'
      rw [List.mem_singleton.mp ha', List.mem_singleton.mp hb']
  | x :: y :: rest =>
      rw [hd] at h
      simp at h

/-
  Claim C1: vocabulary index layout.
-/

theorem buildWord2idx_eq (allWords : List String) :
    buildWord2idx allWords =
      (SPECIAL_TOKENS.foldl specialStep
        ((sortStrings allWords.dedup).foldl corpusStep ([], 0))).1 := rfl

/-- Claim C1 (amended): provided no corpus word equals a special-token
string literal, the vocabulary built by load_dataset lists the distinct
corpus words in sorted order followed by the special tokens in declared
order, and its indices are exactly 0, 1, ..., N-1 in that order, so the
indices form a contiguous range with no two tokens sharing an index and the
special tokens on top. -/
theorem vocab_contiguous_no_collision (allWords : List String)
    (h : ∀ w ∈ allWords, w ∉ SPECIAL_TOKENS) :
    (buildWord2idx allWords).map Prod.fst =
      sortStrings allWords.dedup ++ SPECIAL_TOKENS ∧
    (buildWord2idx allWords).map Prod.snd =
      List.range (buildWord2idx allWords).length := by
  have hperm := sortStrings_perm allWords.dedup
  have hWnd : (sortStrings allWords.dedup).Nodup :=
    (hperm.nodup_iff).mpr (List.nodup_dedup allWords)
  have hfold1 : (sortStrings allWords.dedup).foldl corpusStep ([], 0) =
      ([] ++ enumFrom 0 (sortStrings allWords.dedup),
        0 + (sortStrings allWords.dedup).length) :=
    corpus_fold (sortStrings allWords.dedup) [] 0 hWnd (by simp)
  have hfresh : ∀ t ∈ SPECIAL_TOKENS,
      t ∉ (enumFrom 0 (sortStrings allWords.dedup)).map Prod.fst := by
    intro t ht hc
    rw [enumFrom_map_fst] at hc
    have h1 : t ∈ allWords.dedup := hperm.mem_iff.mp hc
    have h2 : t ∈ allWords := List.mem_dedup.mp h1
    exact h t h2 ht
  have hSnd : SPECIAL_TOKENS.Nodup := by decide
  have hfold2 := specials_fold SPECIAL_TOKENS
    (enumFrom 0 (sortStrings allWords.dedup))
    (sortStrings allWords.dedup).length hSnd hfresh
  have hres : buildWord2idx allWords =
      enumFrom 0 (sortStrings allWords.dedup) ++
        enumFrom (sortStrings allWords.dedup).length SPECIAL_TOKENS := by
    rw [buildWord2idx_eq, hfold1]
    simp only [List.nil_append, Nat.zero_add]
    rw [hfold2]
  constructor
  · rw [hres, List.map_append, enumFrom_map_fst, enumFrom_map_fst]
  · rw [hres, List.map_append, enumFrom_map_snd, enumFrom_map_snd,
      List.length_append, enumFrom_length, enumFrom_length,
      List.range_eq_range', range'_add_len, Nat.zero_add]

/-- Claim C1 counterexample: when the corpus contains a word equal to the
PAD special-token literal, the special-token assignment overwrites that
word's entry; the resulting vocabulary has five tokens but its indices are
1..5, so index 0 is assigned to no token and the range is not contiguous. -/
theorem vocab_collision_cex :
    buildWord2idx ["[PAD]"] =
      [("[PAD]", 1), ("[BOS]", 2), ("[EOS]", 3), ("[UNK]", 4),
        ("[PAUSE]", 5)] ∧
    (buildWord2idx ["[PAD]"]).length = 5 ∧
    0 ∉ (buildWord2idx ["[PAD]"]).map Prod.snd := by decide

theorem vocab_contiguous_no_collision_witness :
    (buildWord2idx ["b", "a"]).map Prod.fst =
      sortStrings (["b", "a"]).dedup ++ SPECIAL_TOKENS ∧
    (buildWord2idx ["b", "a"]).map Prod.snd =
      List.range (buildWord2idx ["b", "a"]).length :=
  vocab_contiguous_no_collision ["b", "a"] (by decide)

/-
  Claim C3: the keep-pauses branch.
-/

/-- Claim C3 (code behavior at the failing input): with remove_pauses
disabled, the pause-handling loop replaces a pause position in place with
the PAUSE string, but for a non-pause position it APPENDS the decoded word
to the end of the aliased list and leaves the original raw row at its
position, so the text sequence grows instead of being decoded in place:
one non-pause word yields a two-cell sequence. -/
theorem pause_keep_appends_not_in_place :
    pauseKeepText [TCell.raw "hello"] (spIdx [TCell.raw "hello"]) =
      [TCell.raw "hello", TCell.str "hello"] ∧
    pauseKeepText [TCell.raw "sp", TCell.raw "hi"]
        (spIdx [TCell.raw "sp", TCell.raw "hi"]) =
      [TCell.str pauseValue, TCell.raw "hi", TCell.str "hi"] ∧
    (pauseKeepText [TCell.raw "hello"]
        (spIdx [TCell.raw "hello"])).length ≠
      ([TCell.raw "hello"] : List TCell).length := by decide

/-
  Claim C6: pad_front layout.
-/

/-- Claim C6: under max_length > 0 and pad_front with a short sequence, the
length-normalization step returns PAD-prefix ++ original for text and
zero-vector-prefix ++ original for a non-text modality, the zero rows
having the common per-row shape of the original rows. -/
theorem pad_front_layout (maxLength : Int) (pb : Bool) (s : List TCell)
    (rows : List (List Val)) (d : Nat)
    (hM : 0 < maxLength) (hs : s.length < maxLength.toNat)
    (hrows : rows.length < maxLength.toNat) (hne : 0 < rows.length)
    (hd : d = (rows.getD 0 []).length)
    (hunif : ∀ v ∈ rows, v.length = d) :
    fixLenText maxLength true pb s =
      List.replicate (maxLength.toNat - s.length)
        (TCell.str padValue) ++ s ∧
    fixLenVec maxLength true pb rows =
      List.replicate (maxLength.toNat - rows.length)
        (List.replicate d (Val.num 0)) ++ rows := by
  constructor
  · rw [fixLenText_eq, if_neg (by omega), if_pos ⟨hs, rfl⟩]
  · rw [fixLenVec_eq, if_neg (by omega), if_pos ⟨hrows, rfl⟩, hd]

theorem pad_front_layout_witness :
    fixLenText 3 true false [TCell.raw "a"] =
      List.replicate 2 (TCell.str padValue) ++ [TCell.raw "a"] ∧
    fixLenVec 3 true false [[Val.num 5]] =
      List.replicate 2 (List.replicate 1 (Val.num 0)) ++ [[Val.num 5]] :=
  pad_front_layout 3 false [TCell.raw "a"] [[Val.num 5]] 1 (by decide)
    (by decide) (by decide) (by decide) (by decide) (by decide)

/-
  Claim C2: max_length enforcement.
-/

/-- Configuration with max_length 2 and both pad flags off. -/
def cfgNoPad : Config :=
  { modalities := ["audio"], removePauses := false, removeNeutral := false
    maxLength := 2, padFront := false, padBack := false }

/-- Folds whose train fold contains the single video id v. -/
def foldsTrainV : Folds := { train := ["v"], dev := [], test := [] }

/-- A segment with a single one-dimensional audio row. -/
def segAudioOne : Segment :=
  { segId := "v[1]", label := Val.num 1, text := []
    feats := fun _ => [[Val.num 1]] }

/-- The record cfgNoPad emits for segAudioOne. -/
def recNoPad : Record :=
  { videoId := "v", segId := "v[1]", label := Val.num 1, text? := none
    feats := [("audio", [[Val.num 1]])] }

/-- Claim C2 counterexample: with max_length = 2 > 0 but both pad flags
off, a length-1 audio sequence is emitted into the train split with 1 row,
not max_length rows. -/
theorem maxlen_unpadded_cex :
    cleanSplitDataset cfgNoPad foldsTrainV [segAudioOne] =
      Except.ok ([recNoPad], [], [], [Warn.dropped 0]) ∧
    (0 : Int) < cfgNoPad.maxLength ∧
    recNoPad.feats = [("audio", [[Val.num 1]])] ∧
    ([[Val.num 1]] : List (List Val)).length ≠ cfgNoPad.maxLength.toNat :=
  ⟨rfl, by decide, rfl, by decide⟩

/-- Claim C2 (amended): if max_length > 0 AND at least one of pad_front and
pad_back is set, then every sequence of every modality of every record
emitted into any split has exactly max_length rows. -/
theorem emitted_len_eq_maxLength (cfg : Config) (folds : Folds)
    (segs : List Segment) (tr dv ts : List Record) (ws : List Warn)
    (h : cleanSplitDataset cfg folds segs = Except.ok (tr, dv, ts, ws))
    (hM : 0 < cfg.maxLength)
    (hp : cfg.padFront = true ∨ cfg.padBack = true)
    (r : Record) (hr : r ∈ tr ∨ r ∈ dv ∨ r ∈ ts) :
    (∀ p ∈ r.feats, (Prod.snd p).length = cfg.maxLength.toNat) ∧
    (∀ t, r.text? = some t → t.length = cfg.maxLength.toNat) := by
  obtain ⟨st, n, hl, hn, htr, hdv, hts, hws⟩ :=
    cleanSplitDataset_inv cfg folds segs tr dv ts ws h
  have hin : inSplits st r := by
    unfold inSplits
    rw [← htr, ← hdv, ← hts]
    exact hr
  rcases cleanLoop_mem_splits cfg folds segs _ st r hl hin with
    habs | ⟨seg, hseg, hemit⟩
  · simp [inSplits] at habs
  obtain ⟨vid, hv, hne, hsh, hrq⟩ := processSegment_emit_inv cfg seg r hemit
  subst hrq
  constructor
  · intro p hp'
    have hfe : (emitRecord cfg seg vid).feats =
        (cfg.modalities.filter (fun m => !(m == "text"))).map
          (fun m => (m, featsPipeline cfg seg.text (seg.feats m))) := rfl
    rw [hfe] at hp'
    rcases List.mem_map.mp hp' with ⟨m, hm, hpe⟩
    rw [← hpe]
    show (featsPipeline cfg seg.text (seg.feats m)).length =
      cfg.maxLength.toNat
    unfold featsPipeline
    rw [if_pos hM, fixLenVec_length, lenAfterFix_of_pad _ _ _ _ hM hp]
  · intro t ht
    have hte : (emitRecord cfg seg vid).text? =
        textPipeline cfg seg.text := rfl
    rw [hte] at ht
    unfold textPipeline at ht
    by_cases htm : "text" ∈ cfg.modalities
    · rw [if_pos htm, if_pos hM] at ht
      have h2 := (Option.some.injEq _ _).mp ht
      rw [← h2, fixLenText_length, lenAfterFix_of_pad _ _ _ _ hM hp]
    · rw [if_neg htm] at ht
      cases ht

/-- Configuration with max_length 2 and pad_back set. -/
def cfgPadBack : Config :=
  { modalities := ["audio"], removePauses := false, removeNeutral := false
    maxLength := 2, padFront := false, padBack := true }

/-- The record cfgPadBack emits for segAudioOne: zero-padded at the back
to 2 rows. -/
def recPadBack : Record :=
  { videoId := "v", segId := "v[1]", label := Val.num 1, text? := none
    feats := [("audio", [[Val.num 1], [Val.num 0]])] }

theorem emitted_len_eq_maxLength_witness :
    (("audio", [[Val.num 1], [Val.num 0]]) :
        String × List (List Val)).2.length = cfgPadBack.maxLength.toNat :=
  (emitted_len_eq_maxLength cfgPadBack foldsTrainV [segAudioOne]
      [recPadBack] [] [] [Warn.dropped 0] rfl (by decide) (Or.inr rfl)
      recPadBack (Or.inl (List.mem_singleton.mpr rfl))).1
    ("audio", [[Val.num 1], [Val.num 0]]) (by decide)

/-
  Claim C8: the dropped-segment counter.
-/

/-- Configuration that enables the neutral filter. -/
def cfgNeutral : Config :=
  { modalities := ["audio", "text"], removePauses := false
    removeNeutral := true, maxLength := -1, padFront := false
    padBack := false }

/-- A segment whose audio and text lengths differ (1 vs 2). -/
def segMismatch : Segment :=
  { segId := "v[1]", label := Val.num 1
    text := [TCell.raw "a", TCell.raw "b"]
    feats := fun _ => [[Val.num 1]] }

/-- A neutral-labelled segment, skipped before num_drop is assigned. -/
def segNeutralLast : Segment :=
  { segId := "v[2]", label := Val.num 0, text := [], feats := fun _ => [] }

/-- Claim C8 counterexample: with the neutral filter on, a shape-mismatched
segment followed by a neutral segment makes the loop log Dropped 1 even
though the final iteration skipped at the neutral filter before the counter
reset and dropped 0 segments: the counter is NOT re-initialized at the
start of every iteration, and the logged value is not that of the final
iteration. -/
theorem dropped_counter_cex :
    cleanSplitDataset cfgNeutral foldsTrainV [segMismatch, segNeutralLast] =
      Except.ok ([], [], [],
        [Warn.shapeMismatch "v" [("audio", 1), ("text", 2)],
          Warn.dropped 1]) ∧
    processSegment cfgNeutral segNeutralLast =
      Except.ok StepRes.skipNeutral ∧
    (1 : Nat) ≠ 0 :=
  ⟨rfl, rfl, by decide⟩

/-- Claim C8 (amended): the logged Dropped count equals the number of
shape-check drops (0 or 1) recorded by the LAST iteration that reached the
counter initialization, as computed by the per-iteration fold numDropAfter
from an unassigned counter, and is never more than 1 (so no cross-segment
total is ever logged). -/
theorem dropped_counter_last_reset (cfg : Config) (folds : Folds)
    (segs : List Segment) (tr dv ts : List Record) (ws : List Warn)
    (n : Nat)
    (h : cleanSplitDataset cfg folds segs = Except.ok (tr, dv, ts, ws))
    (hn : numDropAfter cfg none segs = some n) :
    ws.getLast? = some (Warn.dropped n) ∧ n ≤ 1 := by
  obtain ⟨st, n2, hl, hn2, htr, hdv, hts, hws⟩ :=
    cleanSplitDataset_inv cfg folds segs tr dv ts ws h
  have hdrop := cleanLoop_numDrop cfg folds segs _ st hl
  have hinit : (⟨[], [], [], [], none⟩ : CState).numDrop = none := rfl
  rw [hinit] at hdrop
  have hnn : n2 = n := by
    rw [hn2] at hdrop
    rw [hn] at hdrop
    exact (Option.some.injEq _ _).mp hdrop
  constructor
  · rw [hws, hnn, List.getLast?_concat]
  · exact numDropAfter_le_one cfg segs none n
      (fun k hk => Option.noConfusion hk) hn

theorem dropped_counter_last_reset_witness :
    ([Warn.dropped 0] : List Warn).getLast? = some (Warn.dropped 0) ∧
    (0 : Nat) ≤ 1 :=
  dropped_counter_last_reset cfgNoPad foldsTrainV [segAudioOne]
    [recNoPad] [] [] [Warn.dropped 0] 0 rfl rfl

/-
  Claim C4: remove_pauses.
-/

theorem modShapes_map_snd (cfg : Config) (seg : Segment) :
    (modShapes cfg seg).map Prod.snd =
      cfg.modalities.map (fun m => modLen seg m) := by
  unfold modShapes
  rw [List.map_map]
  rfl

theorem modLen_eq_of_shape_ok (cfg : Config) (seg : Segment)
    (hsh : ¬ 1 < ((modShapes cfg seg).map Prod.snd).dedup.length)
    (m1 m2 : String) (h1 : m1 ∈ cfg.modalities)
    (h2 : m2 ∈ cfg.modalities) : modLen seg m1 = modLen seg m2 := by
  apply all_eq_of_dedup_le_one hsh
  · rw [modShapes_map_snd]
    exact List.mem_map_of_mem _ h1
  · rw [modShapes_map_snd]
    exact List.mem_map_of_mem _ h2

/-- Claim C4: with remove_pauses on and text requested, no emitted record
has a text cell decoding to the pause marker, and every non-text modality
sequence of the record has the same length as its text sequence
(synchronized deletion keeps the modality lengths equal). -/
theorem remove_pauses_no_sp (cfg : Config) (folds : Folds)
    (segs : List Segment) (tr dv ts : List Record) (ws : List Warn)
    (h : cleanSplitDataset cfg folds segs = Except.ok (tr, dv, ts, ws))
    (hrp : cfg.removePauses = true) (htm : "text" ∈ cfg.modalities)
    (r : Record) (hr : r ∈ tr ∨ r ∈ dv ∨ r ∈ ts) :
    (∀ t, r.text? = some t → ∀ c ∈ t, TCell.decode c ≠ "sp") ∧
    (∀ t, r.text? = some t → ∀ p ∈ r.feats,
      (Prod.snd p).length = t.length) := by
  obtain ⟨st, n, hl, hn, htr, hdv, hts2, hws⟩ :=
    cleanSplitDataset_inv cfg folds segs tr dv ts ws h
  have hin : inSplits st r := by
    unfold inSplits
    rw [← htr, ← hdv, ← hts2]
    exact hr
  rcases cleanLoop_mem_splits cfg folds segs _ st r hl hin with
    habs | ⟨seg, hseg, hemit⟩
  · simp [inSplits] at habs
  obtain ⟨vid, hv, hne, hsh, hrq⟩ := processSegment_emit_inv cfg seg r hemit
  subst hrq
  have hts : textStage cfg seg.text =
      removePausesText seg.text (spIdx seg.text) := by
    unfold textStage
    rw [if_pos hrp]
  constructor
  · intro t ht c hc
    have hte : (emitRecord cfg seg vid).text? =
        textPipeline cfg seg.text := rfl
    rw [hte] at ht
    unfold textPipeline at ht
    rw [if_pos htm, hts] at ht
    have h2 := (Option.some.injEq _ _).mp ht
    by_cases hMp : 0 < cfg.maxLength
    · rw [if_pos hMp] at h2
      rw [← h2] at hc
      rcases fixLenText_mem cfg.maxLength cfg.padFront cfg.padBack _ c hc
        with hcm | hcp
      · exact removePausesText_cells seg.text c hcm
      · rw [hcp]
        decide
    · rw [if_neg hMp] at h2
      rw [← h2] at hc
      exact removePausesText_cells seg.text c hc
  · intro t ht p hp'
    have hte : (emitRecord cfg seg vid).text? =
        textPipeline cfg seg.text := rfl
    rw [hte] at ht
    unfold textPipeline at ht
    rw [if_pos htm, hts] at ht
    have h2 := (Option.some.injEq _ _).mp ht
    have hfe : (emitRecord cfg seg vid).feats =
        (cfg.modalities.filter (fun m => !(m == "text"))).map
          (fun m => (m, featsPipeline cfg seg.text (seg.feats m))) := rfl
    rw [hfe] at hp'
    rcases List.mem_map.mp hp' with ⟨m, hm, hpe⟩
    rcases List.mem_filter.mp hm with ⟨hmm2, hmb⟩
    have hmt : m ≠ "text" := by
      simp at hmb
      exact hmb
    rw [← hpe]
    show (featsPipeline cfg seg.text (seg.feats m)).length = t.length
    unfold featsPipeline
    have hfs : featsStage cfg seg.text (seg.feats m) =
        removePausesVec (nanRows (seg.feats m)) (spIdx seg.text) := by
      unfold featsStage
      rw [if_pos ⟨htm, hrp⟩]
    rw [hfs]
    have hlen : (seg.feats m).length = seg.text.length := by
      have hml := modLen_eq_of_shape_ok cfg seg hsh m "text" hmm2 htm
      unfold modLen at hml
      rw [if_neg hmt, if_pos rfl] at hml
      exact hml
    have hkey : (removePausesVec (nanRows (seg.feats m))
        (spIdx seg.text)).length =
        (removePausesText seg.text (spIdx seg.text)).length := by
      rw [removePausesVec_length, removePausesText_length, nanRows_length,
        hlen]
    by_cases hMp : 0 < cfg.maxLength
    · rw [if_pos hMp] at h2 ⊢
      rw [← h2, fixLenVec_length, fixLenText_length, hkey]
    · rw [if_neg hMp] at h2 ⊢
      rw [← h2, hkey]

/-- Configuration requesting audio and text with remove_pauses on. -/
def cfgRemove : Config :=
  { modalities := ["audio", "text"], removePauses := true
    removeNeutral := false, maxLength := -1, padFront := false
    padBack := false }

/-- A segment whose first text position is a pause. -/
def segPause : Segment :=
  { segId := "v[1]", label := Val.num 1
    text := [TCell.raw "sp", TCell.raw "hi"]
    feats := fun _ => [[Val.num 1], [Val.num 2]] }

/-- The record cfgRemove emits for segPause. -/
def recRemove : Record :=
  { videoId := "v", segId := "v[1]", label := Val.num 1
    text? := some [TCell.str "hi"], feats := [("audio", [[Val.num 2]])] }

theorem remove_pauses_no_sp_witness :
    TCell.decode (TCell.str "hi") ≠ "sp" :=
  (remove_pauses_no_sp cfgRemove foldsTrainV [segPause] [recRemove] [] []
      [Warn.dropped 0] rfl rfl (by decide) recRemove
      (Or.inl (List.mem_singleton.mpr rfl))).1
    [TCell.str "hi"] rfl (TCell.str "hi") (List.mem_singleton.mpr rfl)

/-
  Claim C5: shape-mismatch handling.
-/

/-- Claim C5: a segment that reaches the shape-consistency check with
non-identical modality lengths is absent from all three returned splits
(given distinct segment ids); the loop logs one shape-mismatch warning
tagged with the offending per-modality shape mapping for it, the total
number of shape-mismatch warnings equals the number of shape-dropped
segments (exactly one per such segment), and the pipeline still returns
normally (processing continued with the remaining segments). -/
theorem shape_mismatch_drop (cfg : Config) (folds : Folds)
    (segs : List Segment) (seg : Segment) (vid : String)
    (tr dv ts : List Record) (ws : List Warn)
    (h : cleanSplitDataset cfg folds segs = Except.ok (tr, dv, ts, ws))
    (hmem : seg ∈ segs)
    (hids : (segs.map Segment.segId).Nodup)
    (hv : vidSearch seg.segId = some vid)
    (hne : ¬ (cfg.removeNeutral = true ∧ nanToNum seg.label = Val.num 0))
    (hmm : 1 < ((modShapes cfg seg).map Prod.snd).dedup.length) :
    (∀ r, (r ∈ tr ∨ r ∈ dv ∨ r ∈ ts) → r.segId ≠ seg.segId) ∧
    Warn.shapeMismatch vid (modShapes cfg seg) ∈ ws ∧
    ws.countP isShapeWarn =
      segs.countP (fun s => isDropStep (processSegment cfg s)) := by
  have hstep := processSegment_drop_eq cfg seg vid hv hne hmm
  obtain ⟨st, n, hl, hn, htr, hdv, hts2, hws⟩ :=
    cleanSplitDataset_inv cfg folds segs tr dv ts ws h
  refine ⟨?_, ?_, ?_⟩
  · intro r hr hc
    have hin : inSplits st r := by
      unfold inSplits
      rw [← htr, ← hdv, ← hts2]
      exact hr
    rcases cleanLoop_mem_splits cfg folds segs _ st r hl hin with
      habs | ⟨seg2, hseg2, hemit⟩
    · simp [inSplits] at habs
    obtain ⟨vid2, hv2, hne2, hsh2, hrq2⟩ :=
      processSegment_emit_inv cfg seg2 r hemit
    have hid2 : r.segId = seg2.segId := by
      rw [hrq2]
      rfl
    have heqseg : seg2 = seg :=
      List.inj_on_of_nodup_map hids hseg2 hmem (hid2 ▸ hc)
    rw [heqseg] at hemit
    rw [hstep] at hemit
    have := (Except.ok.injEq _ _).mp hemit
    exact StepRes.noConfusion this
  · rw [hws]
    exact List.mem_append_left _
      (cleanLoop_warn_of_drop cfg folds segs _ st seg vid
        (modShapes cfg seg) hmem hstep hl)
  · have hcount := cleanLoop_warn_count cfg folds segs _ st hl
    have hinit : (⟨[], [], [], [], none⟩ : CState).warns.countP
        isShapeWarn = 0 := rfl
    rw [hinit, Nat.zero_add] at hcount
    rw [hws, List.countP_append, hcount]
    have hlast : ([Warn.dropped n] : List Warn).countP isShapeWarn = 0 :=
      rfl
    rw [hlast, Nat.add_zero]

theorem shape_mismatch_drop_witness :
    Warn.shapeMismatch "v" (modShapes cfgNeutral segMismatch) ∈
      [Warn.shapeMismatch "v" [("audio", 1), ("text", 2)],
        Warn.dropped 1] :=
  (shape_mismatch_drop cfgNeutral foldsTrainV [segMismatch] segMismatch
      "v" [] [] [] [Warn.shapeMismatch "v" [("audio", 1), ("text", 2)],
        Warn.dropped 1] rfl (List.mem_singleton.mpr rfl) (by decide) rfl
      (by decide) (by decide)).2.1

/-
  Claim C10: the video-id regex precondition.
-/

theorem vidIdxsAux_nil_iff (cs : List Char) :
    ∀ k, (vidIdxsAux k cs = [] ↔ hasBracketBlockAux cs = false) := by
  induction cs with
  | nil =>
      intro k
      simp [vidIdxsAux, hasBracketBlockAux]
  | cons c rest ih =>
      intro k
      cases hc : (c == '[' && rest.contains ']') with
      | true =>
          have hc2 : c = '[' ∧ ']' ∈ rest := by
            simpa using hc
          have hL : vidIdxsAux k (c :: rest) =
              k :: vidIdxsAux (k + 1) rest := by
            simp [vidIdxsAux, hc2]
          have hR : hasBracketBlockAux (c :: rest) = true := by
            simp [hasBracketBlockAux, hc2.1, hc2.2]
          rw [hL, hR]
          constructor
          · intro hcon
            cases hcon
          · intro hcon
            cases hcon
      | false => simp [vidIdxsAux, hasBracketBlockAux, hc, ih (k + 1)]

theorem vidSearch_none_of_no_block (s : String)
    (h : hasBracketBlock s = false) : vidSearch s = none := by
  unfold vidSearch
  rw [(vidIdxsAux_nil_iff s.toList 0).mpr h]
  rfl

/-- Claim C10: a segment id without a bracketed sub-segment block makes the
regex search yield no match, and its presence anywhere in the segment list
makes the whole pipeline abort with the AttributeError (the segment is not
dropped-and-skipped); when every id has a bracketed block the per-segment
loop never raises that error. -/
theorem regex_no_block_aborts (cfg : Config) (folds : Folds)
    (segs : List Segment) (seg : Segment)
    (hmem : seg ∈ segs) (hnb : hasBracketBlock seg.segId = false) :
    vidSearch seg.segId = none ∧
    cleanSplitDataset cfg folds segs =
      Except.error CleanErr.attributeError ∧
    (∀ segs2 : List Segment,
      (∀ s ∈ segs2, (vidSearch s.segId).isSome = true) →
      cleanSplitDataset cfg folds segs2 ≠
        Except.error CleanErr.attributeError) := by
  have hv := vidSearch_none_of_no_block seg.segId hnb
  refine ⟨hv, ?_, ?_⟩
  · unfold cleanSplitDataset
    rw [cleanLoop_error_of_bad cfg folds segs _ ⟨seg, hmem, hv⟩]
  · intro segs2 hall hcon
    rcases cleanLoop_total cfg folds segs2 ⟨[], [], [], [], none⟩ hall with
      ⟨st, hst⟩
    unfold cleanSplitDataset at hcon
    rw [hst] at hcon
    have hcon2 : (match st.numDrop with
        | none => Except.error CleanErr.nameError
        | some n =>
            Except.ok (st.train, st.dev, st.test,
              st.warns ++ [Warn.dropped n])) =
        Except.error CleanErr.attributeError := hcon
    cases hnd : st.numDrop with
    | none =>
        rw [hnd] at hcon2
        exact CleanErr.noConfusion ((Except.error.injEq _ _).mp hcon2)
    | some n =>
        rw [hnd] at hcon2
        exact Except.noConfusion hcon2

/-- A segment whose id has no bracketed block. -/
def segNoBlock : Segment :=
  { segId := "nobrackets", label := Val.num 1, text := []
    feats := fun _ => [] }

theorem regex_no_block_aborts_witness :
    vidSearch segNoBlock.segId = none ∧
    cleanSplitDataset cfgNoPad foldsTrainV [segNoBlock] =
      Except.error CleanErr.attributeError :=
  ⟨(regex_no_block_aborts cfgNoPad foldsTrainV [segNoBlock] segNoBlock
      (List.mem_singleton.mpr rfl) (by decide)).1,
    (regex_no_block_aborts cfgNoPad foldsTrainV [segNoBlock] segNoBlock
      (List.mem_singleton.mpr rfl) (by decide)).2.1⟩

/-
  Claims C7 and C9: the split cache.
-/

theorem load_splits_some (compute : LoadArgs → Except CleanErr Quad)
    (store : Store) (args : LoadArgs) (p : String) :
    load_splits compute store args (some p) =
      (match pickle_load store p with
      | Except.ok v => Except.ok (v, store)
      | Except.error PickleErr.fileNotFound =>
          (match compute args with
          | Except.ok q => Except.ok (q, pickle_dump store q p)
          | Except.error e => Except.error (LSErr.cleanErr e))
      | Except.error PickleErr.unpickling =>
          Except.error LSErr.unpickling) := rfl

theorem load_splits_none (compute : LoadArgs → Except CleanErr Quad)
    (store : Store) (args : LoadArgs) :
    load_splits compute store args none =
      (match compute args with
      | Except.ok q => Except.ok (q, store)
      | Except.error e => Except.error (LSErr.cleanErr e)) := rfl

/-- Claim C7: the split cache is a pure optimization: dumping a quadruple
to a cache path and loading that path back yields exactly the stored value,
and load_splits on an absent cache file returns the same quadruple as
load_splits with cache disabled (a miss only recomputes). -/
theorem cache_roundtrip_and_miss
    (compute : LoadArgs → Except CleanErr Quad) (store : Store)
    (args : LoadArgs) (p : String) (q : Quad)
    (hmiss : lookupD store p = none) :
    pickle_load (pickle_dump store q p) p = Except.ok q ∧
    (load_splits compute store args (some p)).map Prod.fst =
      (load_splits compute store args none).map Prod.fst := by
  constructor
  · unfold pickle_load pickle_dump
    rw [lookupD_dictSet]
  · rw [load_splits_some, load_splits_none]
    have hpl : pickle_load store p =
        Except.error PickleErr.fileNotFound := by
      unfold pickle_load
      rw [hmiss]
    rw [hpl]
    cases hc : compute args with
    | ok q2 => rfl
    | error e => rfl

theorem cache_roundtrip_and_miss_witness :
    pickle_load (pickle_dump ([] : Store) ([], [], [], []) "c") "c" =
      Except.ok ([], [], [], []) ∧
    (load_splits (fun _ => Except.ok ([], [], [], [])) ([] : Store)
        { dataset := "mosi", modalities := ["audio", "text"]
          removePauses := false, removeNeutral := true, maxLength := -1
          padFront := false, padBack := false } (some "c")).map Prod.fst =
      (load_splits (fun _ => Except.ok ([], [], [], [])) ([] : Store)
        { dataset := "mosi", modalities := ["audio", "text"]
          removePauses := false, removeNeutral := true, maxLength := -1
          padFront := false, padBack := false } none).map Prod.fst :=
  cache_roundtrip_and_miss (fun _ => Except.ok ([], [], [], [])) []
    { dataset := "mosi", modalities := ["audio", "text"]
      removePauses := false, removeNeutral := true, maxLength := -1
      padFront := false, padBack := false } "c" ([], [], [], []) rfl

/-- Claim C9: on a cache hit load_splits returns the deserialized value
verbatim, independently of the compute pipeline and of every other
argument (two arbitrary configurations sharing the path get the same
result and the store is untouched); a present-but-undeserializable cache
file is NOT treated as a miss: the error propagates instead of triggering
recomputation. -/
theorem cache_hit_ignores_args
    (computeA computeB : LoadArgs → Except CleanErr Quad) (store : Store)
    (argsA argsB : LoadArgs) (p : String) (v : Quad) :
    (lookupD store p = some (FileVal.good v) →
      load_splits computeA store argsA (some p) = Except.ok (v, store) ∧
      load_splits computeB store argsB (some p) = Except.ok (v, store)) ∧
    (lookupD store p = some FileVal.bad →
      load_splits computeA store argsA (some p) =
        Except.error LSErr.unpickling) := by
  constructor
  · intro hg
    have hpl : pickle_load store p = Except.ok v := by
      unfold pickle_load
      rw [hg]
    constructor
    · rw [load_splits_some, hpl]
    · rw [load_splits_some, hpl]
  · intro hb
    have hpl : pickle_load store p =
        Except.error PickleErr.unpickling := by
      unfold pickle_load
      rw [hb]
    rw [load_splits_some, hpl]

theorem cache_hit_ignores_args_witness :
    load_splits (fun _ => Except.ok ([], [], [], []))
        [("c", FileVal.good ([], [], [], []))]
        { dataset := "mosi", modalities := ["audio", "text"]
          removePauses := false, removeNeutral := true, maxLength := -1
          padFront := false, padBack := false } (some "c") =
      Except.ok (([], [], [], []),
        [("c", FileVal.good ([], [], [], []))]) ∧
    load_splits (fun _ => Except.ok ([], [], [], []))
        [("c", FileVal.bad)]
        { dataset := "mosi", modalities := ["audio", "text"]
          removePauses := false, removeNeutral := true, maxLength := -1
          padFront := false, padBack := false } (some "c") =
      Except.error LSErr.unpickling :=
  ⟨((cache_hit_ignores_args (fun _ => Except.ok ([], [], [], []))
      (fun _ => Except.ok ([], [], [], []))
      [("c", FileVal.good ([], [], [], []))]
      { dataset := "mosi", modalities := ["audio", "text"]
        removePauses := false, removeNeutral := true, maxLength := -1
        padFront := false, padBack := false }
      { dataset := "mosi", modalities := ["audio", "text"]
        removePauses := false, removeNeutral := true, maxLength := -1
        padFront := false, padBack := false } "c"
      ([], [], [], [])).1 rfl).1,
    (cache_hit_ignores_args (fun _ => Except.ok ([], [], [], []))
      (fun _ => Except.ok ([], [], [], []))
      [("c", FileVal.bad)]
      { dataset := "mosi", modalities := ["audio", "text"]
        removePauses := false, removeNeutral := true, maxLength := -1
        padFront := false, padBack := false }
      { dataset := "mosi", modalities := ["audio", "text"]
        removePauses := false, removeNeutral := true, maxLength := -1
        padFront := false, padBack := false } "c"
      ([], [], [], [])).2 rfl⟩
